import Mathlib

/-!
Verification of the puffer plotting scripts (`src/scripts/plot_ssim_rebuffer.py`
and `src/scripts/plot_bbr_vs_cubic.py`).

Conventions of the embedding:
* Python floats are modelled as exact rationals (`ℚ`) where only field
  arithmetic is involved, and as reals (`ℝ`) where logarithms appear.
* Python dicts keyed by scheme are modelled as functions into `Option`
  (presence of a key = `some`), except where the source iterates over a dict
  in insertion order, in which case an association list is used.
* Python division, which raises `ZeroDivisionError` on a zero divisor, is
  modelled with `Except` where the divisor can be zero.
* Modules of the repository that are imported by the scripts but are not part
  of the given sources (`helpers`, `stream_processor`, `collect_data`) are
  modelled from the spec; each such definition carries a doc comment saying so.
-/

namespace Puffer

/-- A scheme key: the `(abr, cc)` pair returned by `get_abr_cc`
(`plot_ssim_rebuffer.py`, key `abr_cc`). -/
abbrev SchemeKey := String × String

/-- Modelled from the spec: an `ExperimentConfig` as produced by the metadata
store (`helpers.retrieve_expt_config` is not among the given sources):
`{experiment_id → {cc, abr}}`, immutable once fetched. -/
structure ExptConfig where
  cc : String
  abr : String
deriving DecidableEq

/-- Modelled from the spec: `helpers.retrieve_expt_config` (not among the
given sources).  The cache is an association list `expt_id → config`; the
oracle `lookupFn` stands for the external metadata store.  On cache hit the
cached value is returned with no I/O; on miss one lookup is issued and the
result stored.  The `ℕ` in the result counts external lookups performed by
this call; `none` models `ConfigResolutionError`. -/
def retrieve_expt_config (expt_id : String)
    (cache : List (String × ExptConfig))
    (lookupFn : String → Option ExptConfig) :
    Option (ExptConfig × List (String × ExptConfig) × ℕ) :=
  match cache.find? (fun e => e.1 = expt_id) with
  | some e => some (e.2, cache, 0)
  | none =>
    match lookupFn expt_id with
    | some cfg => some (cfg, (expt_id, cfg) :: cache, 1)
    | none => none

/-- Modelled from the spec: `helpers.ssim_index_to_db` (not among the given
sources): `db = -10 * log10 (1 - index)`. -/
noncomputable def ssim_index_to_db (index : ℝ) : ℝ :=
  -10 * Real.logb 10 (1 - index)

/-- A point of the `video_acked` measurement, reduced to the fields the
scripts read: its experiment id and the raw SSIM index carried by the point
(`none` when the point has no SSIM value). -/
structure VideoAckedPt where
  expt_id : String
  ssim_raw : Option ℚ
deriving DecidableEq

/-- Modelled from the spec: `helpers.get_ssim_index` (not among the given
sources).  Returns the point's SSIM index, or `None` when the point carries
none or the index is exactly 1 — per the spec, index values of exactly 1.0
are excluded from aggregation. -/
def get_ssim_index (pt : VideoAckedPt) : Option ℚ :=
  match pt.ssim_raw with
  | none => none
  | some q => if q = 1 then none else some q

/-- The dict built by `do_collect_ssim`: key `abr_cc`, value `[sum, count]`. -/
abbrev SSimDict := SchemeKey → Option (ℚ × ℕ)

/-- One iteration of the loop body of `do_collect_ssim`
(`plot_ssim_rebuffer.py` lines 37-48) on one `video_acked` point.
`keyf` is the composition `get_abr_cc ∘ retrieve_expt_config`, which is a
pure function of the experiment id for a fixed metadata store. -/
def do_collect_ssim_step (keyf : String → SchemeKey) (d : SSimDict)
    (pt : VideoAckedPt) : SSimDict :=
  let k := keyf pt.expt_id
  let cur := (d k).getD (0, 0)
  match get_ssim_index pt with
  | none => fun k2 => if k2 = k then some cur else d k2
  | some q => fun k2 => if k2 = k then some (cur.1 + q, cur.2 + 1) else d k2

/-- `do_collect_ssim` over the logical concatenation of all windows' points:
folds every point into the dict `d` (initially empty). -/
def do_collect_ssim (keyf : String → SchemeKey) (pts : List VideoAckedPt) :
    SSimDict :=
  pts.foldl (do_collect_ssim_step keyf) (fun _ => none)

/-- Value bound to a scheme key after `collect_ssim` finishes: either the raw
`[sum, count]` list (left untouched when the count is zero) or the average
SSIM in dB. -/
inductive SSimVal where
  | raw (s : ℚ) (c : ℕ)
  | avg (db : ℝ)

/-- The finalization loop of `collect_ssim` (`plot_ssim_rebuffer.py` lines
57-66): each key with a nonzero count is rebound to
`ssim_index_to_db (sum / count)`; a key with count 0 only gets a warning and
keeps its raw pair. -/
noncomputable def collect_ssim_finalize (d : SSimDict) :
    SchemeKey → Option SSimVal :=
  fun k =>
    match d k with
    | none => none
    | some (s, c) =>
      if c = 0 then some (.raw s c)
      else some (.avg (ssim_index_to_db ((s : ℝ) / (c : ℝ))))

/-- `collect_ssim`: accumulate all points, then finalize. -/
noncomputable def collect_ssim (keyf : String → SchemeKey)
    (pts : List VideoAckedPt) : SchemeKey → Option SSimVal :=
  collect_ssim_finalize (do_collect_ssim keyf pts)

/-- The `(sum, count)` pair a dict associates to a key, reading an absent key
as the initial `[0.0, 0]`. -/
def sumCount (d : SSimDict) (k : SchemeKey) : ℚ × ℕ :=
  (d k).getD (0, 0)

/-- The multiset of SSIM indices that points with scheme key `k` contribute
(used to characterize the accumulator). -/
def contrib (keyf : String → SchemeKey) (k : SchemeKey)
    (pts : List VideoAckedPt) : List ℚ :=
  pts.filterMap (fun p => if keyf p.expt_id = k then get_ssim_index p else none)

/-! ### Buffer stream reconstruction (`stream_processor.BufferStream`) -/

/-- Playback indicator carried by a `client_buffer` sample: whether the
client was playing or stalled. -/
inductive BufInd where
  | playing
  | rebuffering
deriving DecidableEq

/-- A point of the `client_buffer` measurement, reduced to the fields the
reconstruction reads: session key, timestamp, and playback indicator
(`none` models a malformed/degenerate sample, which is skipped with a
warning). -/
structure ClientBufferPt where
  session : String
  ts : ℚ
  ind : Option BufInd
deriving DecidableEq

/-- Modelled from the spec: the per-session accumulator of
`stream_processor.BufferStream` (not among the given sources): first/last
seen timestamp, current playback state, and the two running totals. -/
structure SessionAccum where
  first_ts : ℚ
  last_ts : ℚ
  state : BufInd
  total_play : ℚ
  total_rebuf : ℚ
deriving DecidableEq

/-- Modelled from the spec: one transition of the per-session state machine
of `BufferStream` (not among the given sources).  A sample whose timestamp
goes backward relative to the session's last-seen timestamp is discarded
(with a warning); otherwise the elapsed interval since the last-seen
timestamp is added to `total_play` if the prior state was `playing`, or to
`total_rebuf` if it was `rebuffering`, and the state updates to the new
sample's indicator. -/
def sess_add (a : SessionAccum) (ts : ℚ) (ind : BufInd) : SessionAccum :=
  if ts < a.last_ts then a
  else
    { a with
      last_ts := ts
      state := ind
      total_play :=
        a.total_play + (if a.state = .playing then ts - a.last_ts else 0)
      total_rebuf :=
        a.total_rebuf + (if a.state = .rebuffering then ts - a.last_ts else 0) }

/-- Modelled from the spec: the fresh accumulator created on the first sample
seen for a session key. -/
def sess_init (ts : ℚ) (ind : BufInd) : SessionAccum :=
  { first_ts := ts, last_ts := ts, state := ind
    total_play := 0, total_rebuf := 0 }

/-- Insert-or-update in the session map (association list). -/
def sess_upsert (m : List (String × SessionAccum)) (sid : String) (ts : ℚ)
    (ind : BufInd) : List (String × SessionAccum) :=
  match m with
  | [] => [(sid, sess_init ts ind)]
  | (s, a) :: rest =>
    if s = sid then (s, sess_add a ts ind) :: rest
    else (s, a) :: sess_upsert rest sid ts ind

/-- Modelled from the spec: `BufferStream.add_data_point` (not among the
given sources).  A malformed/degenerate sample is skipped; otherwise the
sample is routed to its session's accumulator, created lazily on first
sight. -/
def add_data_point (m : List (String × SessionAccum)) (pt : ClientBufferPt) :
    List (String × SessionAccum) :=
  match pt.ind with
  | none => m
  | some ind => sess_upsert m pt.session pt.ts ind

/-- Modelled from the spec: `BufferStream.done_data_points` (not among the
given sources): after the input stream is exhausted, every session in memory
is finalized into its `(total_play, total_rebuf)` totals. -/
def done_data_points (m : List (String × SessionAccum)) :
    List (String × (ℚ × ℚ)) :=
  m.map (fun e => (e.1, (e.2.total_play, e.2.total_rebuf)))

/-- `collect_rebuffer` (`plot_ssim_rebuffer.py` lines 82-90): feed every
point of every window to `add_data_point`, then `done_data_points`. -/
def collect_rebuffer (pts : List ClientBufferPt) : List (String × (ℚ × ℚ)) :=
  done_data_points (pts.foldl add_data_point [])

/-! ### The reporter `plot_ssim_rebuffer` -/

/-- The per-scheme record carried in the rebuffer aggregate handed to
`plot_ssim_rebuffer`: fields `total_rebuf`, `total_play`, `rebuf_minute`. -/
structure RebufRecord where
  total_rebuf : ℚ
  total_play : ℚ
  rebuf_minute : ℚ
deriving DecidableEq

/-- Modelled from the spec: the fold of per-session `(play, rebuf)` totals
into a scheme's `RebufRecord` (performed inside `BufferStream`, not among
the given sources): totals are summed and `rebuf_minute` is the total
rebuffer time in minutes. -/
def rebufAggregate (sessions : List (ℚ × ℚ)) : RebufRecord :=
  { total_play := (sessions.map Prod.fst).sum
    total_rebuf := (sessions.map Prod.snd).sum
    rebuf_minute := (sessions.map Prod.snd).sum / 60 }

/-- `rebuf_rate` as computed by `plot_ssim_rebuffer` (lines 113-115):
`total_minutes = ceil (total_play / 60)`; `rebuf_rate = rebuf_minute /
total_minutes`. -/
def rebuf_rate (r : RebufRecord) : ℚ :=
  r.rebuf_minute / (⌈r.total_play / 60⌉ : ℚ)

/-- Association-list lookup for the rebuffer aggregate (`abr_cc in
rebuffer` / `rebuffer[abr_cc]`). -/
def assoc_find {α : Type} (k : SchemeKey) :
    List (SchemeKey × α) → Option α
  | [] => none
  | (k2, v) :: rest => if k2 = k then some v else assoc_find k rest

/-- The loop of `plot_ssim_rebuffer` (lines 101-120): iterate over the keys
of the ssim aggregate in order; a key absent from the rebuffer aggregate
aborts the whole run (`sys.exit`, modelled as `Except.error` carrying the
key); otherwise the point `(rebuf_rate * 100, avg_ssim_db)` is produced for
the plotting layer. -/
def plot_ssim_rebuffer (ssim : List (SchemeKey × ℝ))
    (rebuffer : List (SchemeKey × RebufRecord)) :
    Except SchemeKey (List (ℚ × ℝ)) :=
  match ssim with
  | [] => .ok []
  | (k, y) :: rest =>
    match assoc_find k rebuffer with
    | none => .error k
    | some rec =>
      match plot_ssim_rebuffer rest rebuffer with
      | .error k2 => .error k2
      | .ok pts => .ok ((rebuf_rate rec * 100, y) :: pts)

/-! ### `plot_bbr_vs_cubic.py` -/

/-- Lookup of a video timestamp in one session's dict `d[session]`
(an association list `video_ts → ssim_index`). -/
def lookupTs (sess : List (ℤ × ℚ)) (t : ℤ) : Option ℚ :=
  match sess with
  | [] => none
  | (ts, q) :: rest => if ts = t then some q else lookupTs rest t

/-- The SSIM values one session appends to `ssim_by_cc[cc]` in `plot_ssim`
(`plot_bbr_vs_cubic.py` lines 95-104): every sample's index is converted to
dB, except indices of exactly 1, which are skipped. -/
noncomputable def sessSsimList (sess : List (ℤ × ℚ)) : List ℝ :=
  sess.filterMap (fun (e : ℤ × ℚ) =>
    if e.2 = 1 then none else some (ssim_index_to_db (e.2 : ℝ)))

/-- The SSIM variations one session appends to `ssim_var_by_cc[cc]` in
`plot_ssim` (lines 106-117): for each sample with index ≠ 1 whose
predecessor at `video_ts - VIDEO_DURATION` exists and also has index ≠ 1,
the absolute difference of the two dB values.  `vd` is `VIDEO_DURATION`
(imported from `collect_data`, not among the given sources). -/
noncomputable def sessVarList (vd : ℤ) (sess : List (ℤ × ℚ)) : List ℝ :=
  sess.filterMap (fun (e : ℤ × ℚ) =>
    if e.2 = 1 then none
    else
      match lookupTs sess (e.1 - vd) with
      | none => none
      | some pq =>
        if pq = 1 then none
        else some (abs (ssim_index_to_db (e.2 : ℝ) - ssim_index_to_db (pq : ℝ))))

/-- Per-session play/rebuffer totals as found in `buffer_data` handed to
`plot_rebuf_rate` (produced by `collect_data.collect_buffer_data`, not among
the given sources): fields `play` and `rebuf`. -/
structure PlayRebuf where
  play : ℚ
  rebuf : ℚ
deriving DecidableEq

/-- Python division: raises `ZeroDivisionError` on a zero divisor. -/
def pydiv (a b : ℚ) : Except Unit ℚ :=
  if b = 0 then .error () else .ok (a / b)

/-- One iteration of the loop of `plot_rebuf_rate`
(`plot_bbr_vs_cubic.py` lines 169-177): resolve the session's `cc` (the
session key is reduced to its `expt_id` component, the only field read),
create the key's empty list if absent, and append
`100 * rebuf / play` — a plain Python division. -/
def plot_rebuf_rate_step (ccOf : String → String)
    (d : String → Option (List ℚ)) (sess : String × PlayRebuf) :
    Except Unit (String → Option (List ℚ)) :=
  let cc := ccOf sess.1
  let cur := (d cc).getD []
  match pydiv (100 * sess.2.rebuf) sess.2.play with
  | .error e => .error e
  | .ok rate => .ok (fun c => if c = cc then some (cur ++ [rate]) else d c)

/-- The loop of `plot_rebuf_rate` over all sessions of `buffer_data`. -/
def plot_rebuf_rate (ccOf : String → String)
    (sessions : List (String × PlayRebuf)) :
    Except Unit (String → Option (List ℚ)) :=
  sessions.foldlM (plot_rebuf_rate_step ccOf) (fun _ => none)

/-! ### Concrete example inputs used by the claims -/

/-- The spec's worked example: session S with samples at t=0 (playing),
t=10 (playing), t=10 (rebuffering), t=40 (playing). -/
def exampleSession : List ClientBufferPt :=
  [⟨"S", 0, some .playing⟩, ⟨"S", 10, some .playing⟩,
   ⟨"S", 10, some .rebuffering⟩, ⟨"S", 40, some .playing⟩]

/-- The action of `add_data_point` on a single session's accumulator
(the per-session view of the state machine). -/
def sess_step (a : SessionAccum) (p : ClientBufferPt) : SessionAccum :=
  match p.ind with
  | none => a
  | some i => sess_add a p.ts i

end Puffer

namespace Puffer

/-! ## Lemmas about the buffer stream reconstruction -/

/-- When every sample belongs to session `s`, the whole-stream fold acts on
the single accumulator of `s`. -/
theorem foldl_add_single (s : String) :
    ∀ (pts : List ClientBufferPt) (a : SessionAccum),
      (∀ p ∈ pts, p.session = s) →
      pts.foldl add_data_point [(s, a)] = [(s, pts.foldl sess_step a)] := by
  intro pts
  induction pts with
  | nil => intro a _; rfl
  | cons p rest ih =>
    intro a hs
    have hps : p.session = s := hs p (List.mem_cons_self p rest)
    have hrest : ∀ q ∈ rest, q.session = s :=
      fun q hq => hs q (List.mem_cons_of_mem p hq)
    simp only [List.foldl_cons]
    have hstep : add_data_point [(s, a)] p = [(s, sess_step a p)] := by
      cases h : p.ind with
      | none => simp [add_data_point, sess_step, h]
      | some i => simp [add_data_point, sess_step, sess_upsert, h, hps]
    rw [hstep, ih (sess_step a p) hrest]

/-- The conserved quantity of the per-session state machine: every
transition adds the elapsed interval to exactly one of the two totals, so
`total_play + total_rebuf - last_ts` never changes. -/
theorem sess_step_conserved (a : SessionAccum) (p : ClientBufferPt) :
    (sess_step a p).total_play + (sess_step a p).total_rebuf
        - (sess_step a p).last_ts
      = a.total_play + a.total_rebuf - a.last_ts := by
  cases h : p.ind with
  | none => simp [sess_step, h]
  | some i =>
    simp only [sess_step, h]
    unfold sess_add
    by_cases hlt : p.ts < a.last_ts
    · simp [hlt]
    · cases hst : a.state <;> simp [hlt, hst] <;> ring

/-- The conserved quantity, propagated along the whole fold. -/
theorem sess_fold_conserved :
    ∀ (pts : List ClientBufferPt) (a : SessionAccum),
      (pts.foldl sess_step a).total_play + (pts.foldl sess_step a).total_rebuf
          - (pts.foldl sess_step a).last_ts
        = a.total_play + a.total_rebuf - a.last_ts := by
  intro pts
  induction pts with
  | nil => intro a; rfl
  | cons p rest ih =>
    intro a
    simp only [List.foldl_cons]
    rw [ih (sess_step a p), sess_step_conserved]

/-- Under valid indicators and nondecreasing timestamps starting no earlier
than the accumulator's last-seen timestamp, the fold ends with `last_ts`
equal to the final sample's timestamp. -/
theorem sess_fold_last :
    ∀ (pts : List ClientBufferPt) (a : SessionAccum) (pl : ClientBufferPt),
      (∀ p ∈ pts, p.ind.isSome = true) →
      List.Chain' (fun p q : ClientBufferPt => p.ts ≤ q.ts) pts →
      (∀ p ∈ pts.head?, a.last_ts ≤ p.ts) →
      pts.getLast? = some pl →
      (pts.foldl sess_step a).last_ts = pl.ts := by
  intro pts
  induction pts with
  | nil => intro a pl _ _ _ hlast; simp at hlast
  | cons p rest ih =>
    intro a pl hvalid hchain hhead hlast
    obtain ⟨i, hi⟩ := Option.isSome_iff_exists.mp
      (hvalid p (List.mem_cons_self p rest))
    have hle : a.last_ts ≤ p.ts := hhead p (by simp)
    have hstep : (sess_step a p).last_ts = p.ts := by
      simp only [sess_step, hi]
      unfold sess_add
      rw [if_neg (not_lt.mpr hle)]
    cases rest with
    | nil =>
      simp only [List.getLast?_singleton, Option.some_inj] at hlast
      subst hlast
      simpa using hstep
    | cons q rest2 =>
      simp only [List.foldl_cons]
      have hchain2 : List.Chain' (fun p q : ClientBufferPt => p.ts ≤ q.ts)
          (q :: rest2) := hchain.tail
      have hpq : p.ts ≤ q.ts := List.chain'_cons.mp hchain |>.1
      have hlast2 : (q :: rest2).getLast? = some pl := by
        rwa [List.getLast?_cons_cons] at hlast
      have := ih (sess_step a p) pl
        (fun r hr => hvalid r (List.mem_cons_of_mem p hr)) hchain2
        (by intro r hr
            simp only [List.head?_cons, Option.mem_def, Option.some_inj] at hr
            subst hr
            rw [hstep]
            exact hpq)
        hlast2
      simpa only [List.foldl_cons] using this

/-- Claim C1: for every single-session sample stream with valid indicators and
nondecreasing timestamps, feeding each sample to `add_data_point` and
finalizing with `done_data_points` yields totals with
`total_play + total_rebuf = last timestamp - first timestamp`; and on the
spec's four-sample example the totals are `total_play = 10`,
`total_rebuf = 30`. -/
theorem buffer_reconstruction_span :
    (∀ (s : String) (pts : List ClientBufferPt) (p0 pl : ClientBufferPt),
      (∀ p ∈ pts, p.session = s) →
      (∀ p ∈ pts, p.ind.isSome = true) →
      List.Chain' (fun p q : ClientBufferPt => p.ts ≤ q.ts) pts →
      pts.head? = some p0 →
      pts.getLast? = some pl →
      ∃ play rebuf, collect_rebuffer pts = [(s, (play, rebuf))] ∧
        play + rebuf = pl.ts - p0.ts) ∧
    collect_rebuffer exampleSession = [("S", (10, 30))] := by
  constructor
  · intro s pts p0 pl hsess hvalid hchain hhead hlast
    cases pts with
    | nil => simp at hhead
    | cons q rest =>
      have hq0 : p0 = q := by
        simp only [List.head?_cons, Option.some_inj] at hhead
        exact hhead.symm
      subst hq0
      obtain ⟨i0, hi0⟩ := Option.isSome_iff_exists.mp
        (hvalid p0 (List.mem_cons_self p0 rest))
      have hfirst : add_data_point [] p0 = [(s, sess_init p0.ts i0)] := by
        have hs0 : p0.session = s := hsess p0 (List.mem_cons_self p0 rest)
        simp [add_data_point, hi0, sess_upsert, hs0]
      have hrest : ∀ p ∈ rest, p.session = s :=
        fun p hp => hsess p (List.mem_cons_of_mem p0 hp)
      have hfold : collect_rebuffer (p0 :: rest) =
          done_data_points [(s, rest.foldl sess_step (sess_init p0.ts i0))] := by
        unfold collect_rebuffer
        rw [List.foldl_cons, hfirst, foldl_add_single s rest _ hrest]
      set A := rest.foldl sess_step (sess_init p0.ts i0) with hA
      refine ⟨A.total_play, A.total_rebuf, by simp [hfold, done_data_points], ?_⟩
      have hcons := sess_fold_conserved rest (sess_init p0.ts i0)
      rw [← hA] at hcons
      simp only [sess_init] at hcons
      have hlastts : A.last_ts = pl.ts := by
        cases rest with
        | nil =>
          have hpl : pl = p0 := by
            simp only [List.getLast?_singleton, Option.some_inj] at hlast
            exact hlast.symm
          subst hpl
          simp [hA, sess_init]
        | cons q2 rest2 =>
          have hlast2 : (q2 :: rest2).getLast? = some pl := by
            rwa [List.getLast?_cons_cons] at hlast
          refine sess_fold_last (q2 :: rest2) (sess_init p0.ts i0) pl
            (fun p hp => hvalid p (List.mem_cons_of_mem p0 hp))
            hchain.tail ?_ hlast2
          intro r hr
          simp only [List.head?_cons, Option.mem_def, Option.some_inj] at hr
          subst hr
          simpa [sess_init] using (List.chain'_cons.mp hchain).1
      have hspan : A.total_play + A.total_rebuf - pl.ts = 0 + 0 - p0.ts := by
        rw [← hlastts]; simpa using hcons
      linarith
  · norm_num [collect_rebuffer, exampleSession, add_data_point, sess_upsert,
      sess_add, sess_init, done_data_points]
    exact ⟨by decide, by decide⟩

/-- Witness for C1: the spec's example discharges every hypothesis of the
general statement, and on it the totals sum to the timestamp span 40. -/
theorem buffer_reconstruction_span_witness :
    ∃ play rebuf, collect_rebuffer exampleSession = [("S", (play, rebuf))] ∧
      play + rebuf = 40 - 0 := by
  have h := buffer_reconstruction_span.1 "S" exampleSession
    ⟨"S", 0, some .playing⟩ ⟨"S", 40, some .playing⟩
    (by decide) (by decide)
    (by norm_num [exampleSession, List.chain'_cons]) (by decide) (by decide)
  simpa using h

/-! ## Lemmas about the SSIM accumulator -/

/-- A key is absent from the accumulated dict exactly when it was absent
initially and no point maps to it. -/
theorem do_collect_key_none (keyf : String → SchemeKey) :
    ∀ (pts : List VideoAckedPt) (d : SSimDict) (k : SchemeKey),
      (pts.foldl (do_collect_ssim_step keyf) d) k = none ↔
        (d k = none ∧ ∀ p ∈ pts, keyf p.expt_id ≠ k) := by
  intro pts
  induction pts with
  | nil => intro d k; simp
  | cons p rest ih =>
    intro d k
    simp only [List.foldl_cons]
    rw [ih (do_collect_ssim_step keyf d p) k]
    have hstep : (do_collect_ssim_step keyf d p) k = none ↔
        (d k = none ∧ keyf p.expt_id ≠ k) := by
      unfold do_collect_ssim_step
      cases g : get_ssim_index p <;>
        · simp only [g]
          by_cases hk : k = keyf p.expt_id <;> simp [hk, eq_comm]
    rw [hstep]
    constructor
    · rintro ⟨⟨hd, hp⟩, hrest⟩
      exact ⟨hd, by
        intro r hr
        rcases List.mem_cons.mp hr with h | h
        · subst h; exact hp
        · exact hrest r h⟩
    · rintro ⟨hd, hall⟩
      exact ⟨⟨hd, hall p (List.mem_cons_self p rest)⟩,
        fun r hr => hall r (List.mem_cons_of_mem p hr)⟩

/-- The `(sum, count)` pair a key carries after accumulation: the initial
pair plus the sum and number of the SSIM indices contributed to the key. -/
theorem do_collect_sumCount (keyf : String → SchemeKey) :
    ∀ (pts : List VideoAckedPt) (d : SSimDict) (k : SchemeKey),
      sumCount (pts.foldl (do_collect_ssim_step keyf) d) k =
        ((sumCount d k).1 + (contrib keyf k pts).sum,
         (sumCount d k).2 + (contrib keyf k pts).length) := by
  intro pts
  induction pts with
  | nil => intro d k; simp [contrib]
  | cons p rest ih =>
    intro d k
    simp only [List.foldl_cons]
    rw [ih (do_collect_ssim_step keyf d p) k]
    have hcontrib : contrib keyf k (p :: rest) =
        (match (if keyf p.expt_id = k then get_ssim_index p else none) with
          | none => contrib keyf k rest
          | some q => q :: contrib keyf k rest) := by
      simp only [contrib, List.filterMap_cons]
      cases hif : (if keyf p.expt_id = k then get_ssim_index p else none) <;>
        simp
    by_cases hk : keyf p.expt_id = k
    · cases g : get_ssim_index p with
      | none =>
        have hstep : sumCount (do_collect_ssim_step keyf d p) k = sumCount d k := by
          unfold do_collect_ssim_step sumCount
          simp [g, hk]
        rw [hstep, hcontrib]
        simp [hk, g]
      | some q =>
        have hstep : sumCount (do_collect_ssim_step keyf d p) k =
            ((sumCount d k).1 + q, (sumCount d k).2 + 1) := by
          unfold do_collect_ssim_step sumCount
          simp [g, hk]
        rw [hstep, hcontrib]
        simp only [hk, if_true, g, List.sum_cons, List.length_cons,
          Prod.mk.injEq]
        constructor
        · ring
        · omega
    · have hne : ¬(k = keyf p.expt_id) := fun h => hk h.symm
      have hstep : sumCount (do_collect_ssim_step keyf d p) k = sumCount d k := by
        unfold do_collect_ssim_step sumCount
        cases g : get_ssim_index p <;> simp [g, hne]
      rw [hstep, hcontrib]
      simp [hk]

/-- Claim C7: accumulating the same multiset of `video_acked` points in any order
yields the same per-scheme `(sum, count)` dict, and hence the same finalized
averages. -/
theorem ssim_accumulation_perm_invariant :
    ∀ (keyf : String → SchemeKey) (l1 l2 : List VideoAckedPt),
      l1.Perm l2 →
      do_collect_ssim keyf l1 = do_collect_ssim keyf l2 ∧
        collect_ssim keyf l1 = collect_ssim keyf l2 := by
  intro keyf l1 l2 hperm
  have hmain : do_collect_ssim keyf l1 = do_collect_ssim keyf l2 := by
    funext k
    have hc : (contrib keyf k l1).Perm (contrib keyf k l2) :=
      hperm.filterMap _
    cases h1 : do_collect_ssim keyf l1 k with
    | none =>
      have := (do_collect_key_none keyf l1 (fun _ => none) k).mp h1
      have h2 : do_collect_ssim keyf l2 k = none :=
        (do_collect_key_none keyf l2 (fun _ => none) k).mpr
          ⟨rfl, fun p hp => this.2 p (hperm.mem_iff.mpr hp)⟩
      rw [h2]
    | some v =>
      cases h2 : do_collect_ssim keyf l2 k with
      | none =>
        have := (do_collect_key_none keyf l2 (fun _ => none) k).mp h2
        have h1n : do_collect_ssim keyf l1 k = none :=
          (do_collect_key_none keyf l1 (fun _ => none) k).mpr
            ⟨rfl, fun p hp => this.2 p (hperm.mem_iff.mp hp)⟩
        rw [h1n] at h1
        exact absurd h1 (by simp)
      | some w =>
        have hv : v = sumCount (do_collect_ssim keyf l1) k := by
          simp [sumCount, h1]
        have hw : w = sumCount (do_collect_ssim keyf l2) k := by
          simp [sumCount, h2]
        have e1 := do_collect_sumCount keyf l1 (fun _ => none) k
        have e2 := do_collect_sumCount keyf l2 (fun _ => none) k
        have hsum : (contrib keyf k l1).sum = (contrib keyf k l2).sum :=
          hc.sum_eq
        have hlen : (contrib keyf k l1).length = (contrib keyf k l2).length :=
          hc.length_eq
        have : v = w := by
          rw [hv, hw]
          unfold do_collect_ssim at e1 e2 ⊢
          rw [e1, e2, hsum, hlen]
        rw [this]
  exact ⟨hmain, by unfold collect_ssim; rw [hmain]⟩

/-- Witness for C7: two orderings of a two-point multiset accumulate to the
same dict. -/
theorem ssim_accumulation_perm_invariant_witness :
    do_collect_ssim (fun e => ("puffer", e))
        [⟨"bbr", some (1/2)⟩, ⟨"cubic", some (3/4)⟩] =
      do_collect_ssim (fun e => ("puffer", e))
        [⟨"cubic", some (3/4)⟩, ⟨"bbr", some (1/2)⟩] :=
  (ssim_accumulation_perm_invariant (fun e => ("puffer", e))
    [⟨"bbr", some (1/2)⟩, ⟨"cubic", some (3/4)⟩]
    [⟨"cubic", some (3/4)⟩, ⟨"bbr", some (1/2)⟩]
    (List.Perm.swap _ _ _)).1

/-- Claim C9: a scheme key whose accumulated count is zero keeps its raw
`[0.0, 0]` pair through `collect_ssim`'s finalization — it is neither
converted to a dB average nor removed, so it keeps the returned mapping
non-empty. -/
theorem collect_ssim_zero_count_raw :
    ∀ (keyf : String → SchemeKey) (pts : List VideoAckedPt) (k : SchemeKey)
      (s : ℚ),
      do_collect_ssim keyf pts k = some (s, 0) →
      s = 0 ∧ collect_ssim keyf pts k = some (.raw 0 0) ∧
        (collect_ssim keyf pts k).isSome = true := by
  intro keyf pts k s h
  have hs : s = 0 := by
    have hsc : sumCount (do_collect_ssim keyf pts) k = (s, 0) := by
      simp [sumCount, h]
    have e := do_collect_sumCount keyf pts (fun _ => none) k
    have hinit : sumCount (fun _ => none : SSimDict) k = (0, 0) := by
      simp [sumCount]
    rw [hinit] at e
    have e2 : sumCount (do_collect_ssim keyf pts) k =
        ((contrib keyf k pts).sum, (contrib keyf k pts).length) := by
      unfold do_collect_ssim
      simpa using e
    rw [hsc] at e2
    have hlen : (contrib keyf k pts).length = 0 := (Prod.mk.injEq _ _ _ _).mp e2.symm |>.2
    have hnil : contrib keyf k pts = [] := List.length_eq_zero.mp hlen
    have hsum : s = (contrib keyf k pts).sum := (Prod.mk.injEq _ _ _ _).mp e2 |>.1
    rw [hnil] at hsum
    simpa using hsum
  subst hs
  refine ⟨rfl, ?_, ?_⟩
  · unfold collect_ssim collect_ssim_finalize
    rw [h]
    simp
  · unfold collect_ssim collect_ssim_finalize
    rw [h]
    simp

/-- Witness for C9: one point carrying no SSIM value creates its key with the
raw `[0.0, 0]` pair, which finalization keeps. -/
theorem collect_ssim_zero_count_raw_witness :
    collect_ssim (fun e => ("puffer", e)) [⟨"bbr", none⟩] ("puffer", "bbr") =
      some (.raw 0 0) :=
  (collect_ssim_zero_count_raw (fun e => ("puffer", e)) [⟨"bbr", none⟩]
    ("puffer", "bbr") 0 (by simp [do_collect_ssim, do_collect_ssim_step,
      get_ssim_index])).2.1

/-- `log10` of the inverse of a power of ten. -/
theorem logb_ten_inv_pow (n : ℕ) :
    Real.logb 10 (((10 : ℝ) ^ n)⁻¹) = -(n : ℝ) := by
  have h1 : ((10 : ℝ) ^ n)⁻¹ = (10 : ℝ) ^ (-(n : ℝ)) := by
    rw [Real.rpow_neg (by norm_num), Real.rpow_natCast]
  rw [h1, Real.logb_rpow (by norm_num) (by norm_num)]

/-- Claim C10: for a key with a nonzero sample count, `collect_ssim` reports
the dB conversion of the arithmetic mean of the raw indices,
`ssim_index_to_db (sum / count)` — which differs from the arithmetic mean of
the per-sample dB values, as the two-sample input with indices 0 and 0.99
shows. -/
theorem collect_ssim_avg_of_mean_index :
    (∀ (d : SSimDict) (k : SchemeKey) (s : ℚ) (c : ℕ),
      d k = some (s, c) → c ≠ 0 →
      collect_ssim_finalize d k =
        some (.avg (ssim_index_to_db ((s : ℝ) / (c : ℝ))))) ∧
    collect_ssim (fun _ => ("fugu", "bbr"))
        [⟨"1", some 0⟩, ⟨"1", some (99/100)⟩] ("fugu", "bbr") =
      some (.avg (ssim_index_to_db ((99 : ℝ) / 200))) ∧
    ssim_index_to_db ((99 : ℝ) / 200) ≠
      (ssim_index_to_db 0 + ssim_index_to_db ((99 : ℝ) / 100)) / 2 := by
  refine ⟨?_, ?_, ?_⟩
  · intro d k s c hd hc
    unfold collect_ssim_finalize
    rw [hd]
    simp [hc]
  · have hdict : do_collect_ssim (fun _ => ("fugu", "bbr"))
        [⟨"1", some 0⟩, ⟨"1", some (99/100)⟩] ("fugu", "bbr") =
        some (99/100, 2) := by
      norm_num [do_collect_ssim, do_collect_ssim_step, get_ssim_index]
    unfold collect_ssim collect_ssim_finalize
    rw [hdict]
    have hcast : (((99/100 : ℚ) : ℝ) / ((2 : ℕ) : ℝ)) = (99 : ℝ) / 200 := by
      push_cast
      norm_num
    simp [hcast]
    norm_num
  · have h0 : ssim_index_to_db 0 = 0 := by
      simp [ssim_index_to_db, Real.logb_one]
    have h99 : ssim_index_to_db ((99 : ℝ) / 100) = 20 := by
      unfold ssim_index_to_db
      have : (1 : ℝ) - 99/100 = ((10 : ℝ) ^ (2 : ℕ))⁻¹ := by norm_num
      rw [this, logb_ten_inv_pow]
      norm_num
    rw [h0, h99]
    have hmid : ((0 : ℝ) + 20) / 2 = 10 := by norm_num
    rw [hmid]
    intro heq
    have hlogb : Real.logb 10 ((101 : ℝ) / 200) = -1 := by
      unfold ssim_index_to_db at heq
      have h1 : (1 : ℝ) - 99/200 = 101/200 := by norm_num
      rw [h1] at heq
      linarith
    have hpow : (10 : ℝ) ^ Real.logb 10 ((101 : ℝ) / 200) =
        (10 : ℝ) ^ (-1 : ℝ) := by rw [hlogb]
    rw [Real.rpow_logb (by norm_num) (by norm_num) (by norm_num)] at hpow
    rw [Real.rpow_neg (by norm_num), Real.rpow_one] at hpow
    norm_num at hpow

/-- Witness for C10: a key carrying `(1/2, 2)` finalizes to the dB of the
mean index. -/
theorem collect_ssim_avg_of_mean_index_witness :
    collect_ssim_finalize (fun _ => some (1/2, 2)) ("fugu", "bbr") =
      some (.avg (ssim_index_to_db (((1/2 : ℚ) : ℝ) / ((2 : ℕ) : ℝ)))) :=
  collect_ssim_avg_of_mean_index.1 (fun _ => some (1/2, 2)) ("fugu", "bbr")
    (1/2) 2 rfl (by norm_num)

/-- Claim C8: the SSIM index-to-dB conversion `-10 * log10 (1 - index)` is
strictly increasing on `[0, 1)`, maps 0.999 to 30.0, and index 1 is excluded
(the point extractor returns no value for it). -/
theorem ssim_db_monotone_and_values :
    (∀ x y : ℝ, 0 ≤ x → x < y → y < 1 →
      ssim_index_to_db x < ssim_index_to_db y) ∧
    ssim_index_to_db ((999 : ℝ) / 1000) = 30 ∧
    (∀ pt : VideoAckedPt, pt.ssim_raw = some 1 → get_ssim_index pt = none) := by
  refine ⟨?_, ?_, ?_⟩
  · intro x y hx hxy hy
    unfold ssim_index_to_db
    have h1 : (0 : ℝ) < 1 - y := by linarith
    have h2 : (1 : ℝ) - y < 1 - x := by linarith
    have := Real.logb_lt_logb (by norm_num : (1 : ℝ) < 10) h1 h2
    linarith
  · unfold ssim_index_to_db
    have : (1 : ℝ) - 999/1000 = ((10 : ℝ) ^ (3 : ℕ))⁻¹ := by norm_num
    rw [this, logb_ten_inv_pow]
    norm_num
  · intro pt h
    simp [get_ssim_index, h]

/-- Witness for C8: the conversion is strictly larger at 0.5 than at 0, and
a point whose index is exactly 1 yields no value. -/
theorem ssim_db_monotone_and_values_witness :
    ssim_index_to_db 0 < ssim_index_to_db (1/2) ∧
      get_ssim_index ⟨"1", some 1⟩ = none :=
  ⟨ssim_db_monotone_and_values.1 0 (1/2) (by norm_num) (by norm_num)
      (by norm_num),
   ssim_db_monotone_and_values.2.2 ⟨"1", some 1⟩ rfl⟩

/-- Claim C4: a sample whose SSIM index is exactly 1 contributes nowhere:
every member of a session's SSIM dB series comes from a sample with index
≠ 1, every member of the variation series comes from two samples with index
≠ 1, and a `video_acked` point whose index is 1 leaves every scheme's
`(sum, count)` pair unchanged. -/
theorem ssim_one_excluded :
    (∀ (sess : List (ℤ × ℚ)) (v : ℝ), v ∈ sessSsimList sess →
      ∃ e, e ∈ sess ∧ e.2 ≠ 1 ∧ v = ssim_index_to_db (e.2 : ℝ)) ∧
    (∀ (vd : ℤ) (sess : List (ℤ × ℚ)) (v : ℝ), v ∈ sessVarList vd sess →
      ∃ e pq, e ∈ sess ∧ e.2 ≠ 1 ∧ lookupTs sess (e.1 - vd) = some pq ∧
        pq ≠ 1 ∧
        v = abs (ssim_index_to_db (e.2 : ℝ) - ssim_index_to_db (pq : ℝ))) ∧
    (∀ (keyf : String → SchemeKey) (d : SSimDict) (pt : VideoAckedPt),
      pt.ssim_raw = some 1 →
      ∀ k, sumCount (do_collect_ssim_step keyf d pt) k = sumCount d k) := by
  refine ⟨?_, ?_, ?_⟩
  · intro sess v hv
    obtain ⟨e, he, hfe⟩ := List.mem_filterMap.mp hv
    by_cases h1 : e.2 = 1
    · rw [if_pos h1] at hfe
      exact absurd hfe (by simp)
    · rw [if_neg h1] at hfe
      exact ⟨e, he, h1, by simpa using hfe.symm⟩
  · intro vd sess v hv
    obtain ⟨e, he, hfe⟩ := List.mem_filterMap.mp hv
    by_cases h1 : e.2 = 1
    · simp [h1] at hfe
    · cases hl : lookupTs sess (e.1 - vd) with
      | none => simp [h1, hl] at hfe
      | some pq =>
        by_cases h2 : pq = 1
        · simp [h1, hl, h2] at hfe
        · refine ⟨e, pq, he, h1, hl, h2, ?_⟩
          simp [h1, hl, h2] at hfe
          exact hfe.symm
  · intro keyf d pt hpt k
    have g : get_ssim_index pt = none := by simp [get_ssim_index, hpt]
    unfold do_collect_ssim_step sumCount
    simp only [g]
    by_cases hk : k = keyf pt.expt_id
    · subst hk; simp
    · simp [hk]

/-- Witness for C4: a concrete membership for each of the three parts. -/
theorem ssim_one_excluded_witness :
    (∃ e, e ∈ [((0 : ℤ), (1 : ℚ)/2)] ∧ e.2 ≠ 1 ∧
      ssim_index_to_db (((1 : ℚ)/2 : ℚ) : ℝ) = ssim_index_to_db (e.2 : ℝ)) ∧
    (∃ e pq, e ∈ [((0 : ℤ), (1 : ℚ)/2), ((1 : ℤ), (1 : ℚ)/3)] ∧ e.2 ≠ 1 ∧
      lookupTs [((0 : ℤ), (1 : ℚ)/2), ((1 : ℤ), (1 : ℚ)/3)] (e.1 - 1) =
        some pq ∧ pq ≠ 1 ∧
      abs (ssim_index_to_db (((1 : ℚ)/3 : ℚ) : ℝ) -
          ssim_index_to_db (((1 : ℚ)/2 : ℚ) : ℝ)) =
        abs (ssim_index_to_db (e.2 : ℝ) - ssim_index_to_db (pq : ℝ))) ∧
    sumCount (do_collect_ssim_step (fun e => ("puffer", e)) (fun _ => none)
        ⟨"bbr", some 1⟩) ("puffer", "bbr") =
      sumCount (fun _ => none : SSimDict) ("puffer", "bbr") := by
  refine ⟨?_, ?_, ?_⟩
  · obtain ⟨e, he, h1, hv⟩ := ssim_one_excluded.1 [((0 : ℤ), (1 : ℚ)/2)]
      (ssim_index_to_db (((1 : ℚ)/2 : ℚ) : ℝ))
      (by norm_num [sessSsimList, List.filterMap])
    exact ⟨e, he, h1, hv⟩
  · obtain ⟨e, pq, he, h1, hl, h2, hv⟩ := ssim_one_excluded.2.1 1
      [((0 : ℤ), (1 : ℚ)/2), ((1 : ℤ), (1 : ℚ)/3)]
      (abs (ssim_index_to_db (((1 : ℚ)/3 : ℚ) : ℝ) -
        ssim_index_to_db (((1 : ℚ)/2 : ℚ) : ℝ)))
      (by norm_num [sessVarList, List.filterMap, lookupTs])
    exact ⟨e, pq, he, h1, hl, h2, hv⟩
  · exact ssim_one_excluded.2.2 (fun e => ("puffer", e)) (fun _ => none)
      ⟨"bbr", some 1⟩ rfl ("puffer", "bbr")

/-- Counterexample to C2: a scheme key present only in the rebuffer
aggregate raises no error — the reporter returns successfully and the
one-sided series is silently omitted (one plotted point for two rebuffer
keys). -/
theorem reporter_one_sided_key_no_error :
    plot_ssim_rebuffer [(("puffer_ttp", "bbr"), (5 : ℝ))]
        [(("puffer_ttp", "bbr"), ⟨0, 60, 0⟩),
         (("linear_bba", "cubic"), ⟨30, 60, 1/2⟩)] =
      .ok [(rebuf_rate ⟨0, 60, 0⟩ * 100, 5)] ∧
    (("linear_bba", "cubic") ∈
      ([(("puffer_ttp", "bbr"), ⟨0, 60, 0⟩),
        (("linear_bba", "cubic"), ⟨30, 60, 1/2⟩)] :
          List (SchemeKey × RebufRecord)).map Prod.fst) ∧
    (("linear_bba", "cubic") ∉
      ([(("puffer_ttp", "bbr"), (5 : ℝ))] :
          List (SchemeKey × ℝ)).map Prod.fst) := by
  refine ⟨?_, by simp, by simp⟩
  rfl

/-- Claim C2 (amended): the reporter fails with a missing-counterpart error
exactly when some key of the ssim aggregate is absent from the rebuffer
aggregate; keys present only in the rebuffer aggregate are silently
omitted. -/
theorem reporter_missing_key_iff :
    ∀ (ssim : List (SchemeKey × ℝ)) (rebuffer : List (SchemeKey × RebufRecord)),
      (plot_ssim_rebuffer ssim rebuffer).isOk = true ↔
        ∀ k ∈ ssim.map Prod.fst, (assoc_find k rebuffer).isSome = true := by
  intro ssim rebuffer
  induction ssim with
  | nil => simp [plot_ssim_rebuffer, Except.isOk, Except.toBool]
  | cons e rest ih =>
    obtain ⟨k, y⟩ := e
    have hmain : (plot_ssim_rebuffer ((k, y) :: rest) rebuffer).isOk = true ↔
        ((assoc_find k rebuffer).isSome = true ∧
          (plot_ssim_rebuffer rest rebuffer).isOk = true) := by
      cases hf : assoc_find k rebuffer with
      | none => simp [plot_ssim_rebuffer, hf, Except.isOk, Except.toBool]
      | some r =>
        cases hp : plot_ssim_rebuffer rest rebuffer <;>
          simp [plot_ssim_rebuffer, hf, hp, Except.isOk, Except.toBool]
    rw [hmain, ih, List.map_cons, List.forall_mem_cons]

/-- Witness for C2 (amended): on the counterexample input every ssim key has
a rebuffer counterpart, so the reporter succeeds. -/
theorem reporter_missing_key_iff_witness :
    (plot_ssim_rebuffer [(("puffer_ttp", "bbr"), (5 : ℝ))]
        [(("puffer_ttp", "bbr"), ⟨0, 60, 0⟩),
         (("linear_bba", "cubic"), ⟨30, 60, 1/2⟩)]).isOk = true ↔
      ∀ k ∈ ([(("puffer_ttp", "bbr"), (5 : ℝ))] :
          List (SchemeKey × ℝ)).map Prod.fst,
        (assoc_find k ([(("puffer_ttp", "bbr"), ⟨0, 60, 0⟩),
          (("linear_bba", "cubic"), ⟨30, 60, 1/2⟩)] :
            List (SchemeKey × RebufRecord))).isSome = true :=
  reporter_missing_key_iff [(("puffer_ttp", "bbr"), (5 : ℝ))]
    [(("puffer_ttp", "bbr"), ⟨0, 60, 0⟩),
     (("linear_bba", "cubic"), ⟨30, 60, 1/2⟩)]

/-- Claim C3: the rebuffer rate handed to the plotting layer is
`rebuf_minute / ceil (total_play / 60)` (scaled by 100 into percent), and on
the spec's two-session example the rate is 1/90. -/
theorem rebuf_rate_formula :
    (∀ r : RebufRecord,
      rebuf_rate r = r.rebuf_minute / (⌈r.total_play / 60⌉ : ℚ)) ∧
    (∀ (k : SchemeKey) (y : ℝ) (r : RebufRecord),
      plot_ssim_rebuffer [(k, y)] [(k, r)] =
        .ok [(rebuf_rate r * 100, y)]) ∧
    rebuf_rate (rebufAggregate [(3600, 60), (1800, 0)]) = 1/90 := by
  refine ⟨fun r => rfl, ?_, ?_⟩
  · intro k y r
    simp [plot_ssim_rebuffer, assoc_find]
  · norm_num [rebuf_rate, rebufAggregate]

/-- Witness for C3: the formula applied to one concrete scheme record. -/
theorem rebuf_rate_formula_witness :
    plot_ssim_rebuffer [(("puffer_ttp", "bbr"), (7 : ℝ))]
        [(("puffer_ttp", "bbr"), ⟨60, 3600, 1⟩)] =
      .ok [(rebuf_rate ⟨60, 3600, 1⟩ * 100, 7)] :=
  rebuf_rate_formula.2.1 ("puffer_ttp", "bbr") 7 ⟨60, 3600, 1⟩

/-- Claim C5 is violated by the code: `plot_rebuf_rate` performs no zero-play guard — a session
whose total play time is zero reaches the division `100 * rebuf / play`
with a zero divisor, and the run fails (Python raises
`ZeroDivisionError`). -/
theorem rebuf_rate_zero_play_division :
    plot_rebuf_rate (fun _ => "bbr") [("e1", ⟨0, 0⟩)] = .error () := by
  rfl

/-- Claim C6: resolving an experiment id a second time returns the identical
config and the unchanged cache, and issues no external lookup. -/
theorem expt_config_cache_idempotent :
    ∀ (expt_id : String) (cache : List (String × ExptConfig))
      (lookupFn : String → Option ExptConfig) (cfg : ExptConfig)
      (cache2 : List (String × ExptConfig)) (n : ℕ),
      retrieve_expt_config expt_id cache lookupFn = some (cfg, cache2, n) →
      retrieve_expt_config expt_id cache2 lookupFn = some (cfg, cache2, 0) := by
  intro expt_id cache lookupFn cfg cache2 n h
  unfold retrieve_expt_config at h ⊢
  cases hf : cache.find? (fun e => e.1 = expt_id) with
  | some e =>
    rw [hf] at h
    simp only [Option.some_inj, Prod.mk.injEq] at h
    obtain ⟨h1, h2, h3⟩ := h
    subst h1
    subst h2
    rw [hf]
  | none =>
    rw [hf] at h
    cases hl : lookupFn expt_id with
    | none =>
      rw [hl] at h
      exact absurd h (by simp)
    | some c =>
      rw [hl] at h
      simp only [Option.some_inj, Prod.mk.injEq] at h
      obtain ⟨h1, h2, h3⟩ := h
      subst h1
      subst h2
      have hfind : ((expt_id, c) :: cache).find? (fun e => e.1 = expt_id) =
          some (expt_id, c) :=
        List.find?_cons_of_pos _ (by simp)
      rw [hfind]

/-- Witness for C6: after a first resolution populates the cache, the second
resolution returns the same config with no lookup. -/
theorem expt_config_cache_idempotent_witness :
    retrieve_expt_config "1" [("1", ⟨"bbr", "puffer_ttp"⟩)]
        (fun i => if i = "1" then some ⟨"bbr", "puffer_ttp"⟩ else none) =
      some (⟨"bbr", "puffer_ttp"⟩, [("1", ⟨"bbr", "puffer_ttp"⟩)], 0) :=
  expt_config_cache_idempotent "1" []
    (fun i => if i = "1" then some ⟨"bbr", "puffer_ttp"⟩ else none)
    ⟨"bbr", "puffer_ttp"⟩ [("1", ⟨"bbr", "puffer_ttp"⟩)] 1 rfl

end Puffer
